import Mathlib

/-!
# Verification of the `rendezvous` crate (src/lib.rs)

Shallow embedding of the `Rendezvous` synchronization primitive: a futex-based
waitgroup whose shared heap record `RDVInner` holds two atomic `u32` counters,
`live` (handles that have not yet begun retirement) and `alloc_dep` (handles
whose retirement protocol has not yet fully completed, i.e. handles that still
keep the allocation alive).

The development has three layers:

* a functional model of the single-thread operations (`new`, `clone`,
  `Debug::fmt`) over the counter record `RDVInner`, with `u32` arithmetic
  made explicit (`% 2^32`, `checked_add`, `fetch_update`);
* a small-step transition system `Step` over whole-group states `RDVState`
  modelling arbitrary interleavings of the per-handle operations
  (`clone` split into its two atomic counter updates, `wait` split into its
  `live`-decrement and its final `alloc_dep`-decrement, `drop` likewise),
  together with the reachability predicate `Reachable` and the main
  inductive invariant `Inv`;
* a syntactic transcription `Code` of each method body recording which
  atomic primitive each statement applies to which field, used for the
  claims about where the futex wait/wake engine is pointed.
-/

namespace Rendezvous

/-- `2^32`, the modulus of the `u32` counters. -/
def U32 : Nat := 4294967296

/-- Wrapping `u32` decrement, as performed by `AtomicU32::fetch_sub(1, _)`. -/
def wrapDec (n : Nat) : Nat := (n + (U32 - 1)) % U32

/-- Wrapping `u32` increment, as performed by `AtomicU32::fetch_add(1, _)`. -/
def wrapInc (n : Nat) : Nat := (n + 1) % U32

/-- `u32::checked_add`: `none` exactly when the mathematical sum exceeds
`u32::MAX = 2^32 - 1`. -/
def checked_add (n m : Nat) : Option Nat :=
  if n + m ≤ U32 - 1 then some (n + m) else none

/-- `AtomicU32::fetch_update` on a single value: applies `f` to the current
value; on `some w` the stored value becomes `w` and `Ok(previous)` is
returned, on `none` the value is untouched and `Err(previous)` is returned.
Result: (new stored value, Rust `Result<u32, u32>`). -/
def fetch_update (f : Nat → Option Nat) (v : Nat) : Nat × Except Nat Nat :=
  match f v with
  | some w => (w, Except.ok v)
  | none => (v, Except.error v)

/-- The shared heap record (`struct RDVInner`), counters as mathematical
naturals that are kept `< 2^32`. -/
structure RDVInner where
  live : Nat
  alloc_dep : Nat
deriving DecidableEq, Repr

/-- `Rendezvous::new`: fresh shared state with both counters at 1.
Total (no error path). -/
def new : RDVInner :=
  { live := 1, alloc_dep := 1 }

/-- The failure of `Clone::clone` at the participant ceiling: in the source it
is the `expect`-abort of the checked `alloc_dep` increment ("There should not
be more than 2^32 - 1 clones of one Rendezvous."). -/
inductive CloneError where
  | CapacityExceeded
deriving DecidableEq, Repr

/-- `<Rendezvous as Clone>::clone` acting on the shared counters: a checked
`fetch_update` increment of `alloc_dep`; on success a (wrapping) `fetch_add`
of `live`; on failure the operation aborts before touching `live`.
Result: (shared state afterwards, error if the duplication failed). -/
def clone (inner : RDVInner) : RDVInner × Option CloneError :=
  let r := fetch_update (fun n => checked_add n 1) inner.alloc_dep
  match r.2 with
  | Except.error _ => ({ inner with alloc_dep := r.1 }, some CloneError.CapacityExceeded)
  | Except.ok _ => ({ live := wrapInc inner.live, alloc_dep := r.1 }, none)

/-- `AtomicU32::load`: returns the current value and the (unchanged) stored
value. -/
def atomicLoad (a : Nat) : Nat × Nat := (a, a)

/-- `<Rendezvous as Debug>::fmt`'s effect on the shared state: two independent
atomic loads; result ((live reported, alloc_dep reported), state afterwards). -/
def debugFmt (inner : RDVInner) : (Nat × Nat) × RDVInner :=
  let l := atomicLoad inner.live
  let d := atomicLoad inner.alloc_dep
  ((l.1, d.1), { live := l.2, alloc_dep := d.2 })

/-! ## Syntactic transcription of the method bodies

Each method body is transcribed as a `Code` tree whose leaves record which
atomic primitive is applied to which field of `RDVInner`.  This layer settles
the purely structural claims: which statements touch the futex engine
(`atomic_wait::wait` / `atomic_wait::wake_all`) and at which address. -/

/-- The two atomic fields of `RDVInner`. -/
inductive Fld where
  | live
  | allocDep
deriving DecidableEq, Repr

/-- The primitive statements appearing in the method bodies. -/
inductive Prim where
  /-- `fld.fetch_sub(1, AcqRel)` -/
  | fetchSub (f : Fld)
  /-- `fld.fetch_add(1, _)` -/
  | fetchAdd (f : Fld)
  /-- `fld.fetch_update(_, _, |n| n.checked_add(1))` -/
  | fetchUpdateChecked (f : Fld)
  /-- `fld.load(Acquire)` -/
  | loadAtomic (f : Fld)
  /-- `atomic_wait::wait(&fld, expected)` -/
  | futexWait (f : Fld)
  /-- `atomic_wait::wake_all(&fld)` -/
  | futexWakeAll (f : Fld)
  /-- `Box::new(RDVInner { .. })` -/
  | boxNew
  /-- `Box::from_raw(ptr)`: the deallocation -/
  | boxFromRaw
  /-- `mem::forget(self)` -/
  | forgetHandle
deriving DecidableEq, Repr

/-- Control-flow skeleton of a method body. -/
inductive Code where
  | skip
  | prim (p : Prim)
  | seq (a b : Code)
  /-- two-armed conditional (condition elided) -/
  | branch (t e : Code)
  /-- `while`-style loop -/
  | loopW (body : Code)
deriving DecidableEq, Repr

/-- Body of `Rendezvous::wait` (src/lib.rs lines 99-131): forget the handle,
`fetch_sub` `live`, wake all on `live` if it hit 0, loop futex-waiting on
`live` and re-loading it, then `fetch_sub` `alloc_dep` and deallocate if it
hit 0. -/
def waitCode : Code :=
  Code.seq (Code.prim Prim.forgetHandle) <|
  Code.seq (Code.prim (Prim.fetchSub Fld.live)) <|
  Code.seq (Code.branch (Code.prim (Prim.futexWakeAll Fld.live)) Code.skip) <|
  Code.seq (Code.loopW (Code.seq (Code.prim (Prim.futexWait Fld.live))
      (Code.prim (Prim.loadAtomic Fld.live)))) <|
  Code.seq (Code.prim (Prim.fetchSub Fld.allocDep))
    (Code.branch (Code.prim Prim.boxFromRaw) Code.skip)

/-- Body of `<Rendezvous as Drop>::drop` (src/lib.rs lines 135-159):
`fetch_sub` `live`, wake all on `live` if it hit 0, then `fetch_sub`
`alloc_dep` and deallocate if it hit 0.  No loop and no futex wait: the
destructor never blocks. -/
def dropCode : Code :=
  Code.seq (Code.prim (Prim.fetchSub Fld.live)) <|
  Code.seq (Code.branch (Code.prim (Prim.futexWakeAll Fld.live)) Code.skip) <|
  Code.seq (Code.prim (Prim.fetchSub Fld.allocDep))
    (Code.branch (Code.prim Prim.boxFromRaw) Code.skip)

/-- Body of `<Rendezvous as Clone>::clone` (src/lib.rs lines 163-176). -/
def cloneCode : Code :=
  Code.seq (Code.prim (Prim.fetchUpdateChecked Fld.allocDep))
    (Code.prim (Prim.fetchAdd Fld.live))

/-- Body of `Rendezvous::new` (src/lib.rs lines 87-96). -/
def newCode : Code :=
  Code.prim Prim.boxNew

/-- Body of `<Rendezvous as Debug>::fmt` (src/lib.rs lines 197-207). -/
def fmtCode : Code :=
  Code.seq (Code.prim (Prim.loadAtomic Fld.live))
    (Code.prim (Prim.loadAtomic Fld.allocDep))

/-- The field a primitive hands to the blocking wait/wake engine, if any. -/
def Prim.engineTarget : Prim → Option Fld
  | Prim.futexWait f => some f
  | Prim.futexWakeAll f => some f
  | _ => none

/-- The field a primitive writes (atomic read-modify-write), if any. -/
def Prim.writeTarget : Prim → Option Fld
  | Prim.fetchSub f => some f
  | Prim.fetchAdd f => some f
  | Prim.fetchUpdateChecked f => some f
  | _ => none

/-- The field a primitive merely loads, if any. -/
def Prim.loadTarget : Prim → Option Fld
  | Prim.loadAtomic f => some f
  | _ => none

/-- All fields handed to the blocking wait/wake engine anywhere in a body. -/
def Code.engineTargets : Code → List Fld
  | Code.skip => []
  | Code.prim p => p.engineTarget.toList
  | Code.seq a b => a.engineTargets ++ b.engineTargets
  | Code.branch t e => t.engineTargets ++ e.engineTargets
  | Code.loopW b => b.engineTargets

/-- All fields written anywhere in a body. -/
def Code.writeTargets : Code → List Fld
  | Code.skip => []
  | Code.prim p => p.writeTarget.toList
  | Code.seq a b => a.writeTargets ++ b.writeTargets
  | Code.branch t e => t.writeTargets ++ e.writeTargets
  | Code.loopW b => b.writeTargets

/-- All fields loaded anywhere in a body. -/
def Code.loadTargets : Code → List Fld
  | Code.skip => []
  | Code.prim p => p.loadTarget.toList
  | Code.seq a b => a.loadTargets ++ b.loadTargets
  | Code.branch t e => t.loadTargets ++ e.loadTargets
  | Code.loopW b => b.loadTargets

/-- Does the body mention the futex primitives at all? -/
def Code.usesEngine (c : Code) : Bool := !c.engineTargets.isEmpty

/-! ## The interleaving transition system

A whole rendezvous group is modelled as one state.  Every handle that has
ever existed occupies one slot of `handles`; its `Phase` records how far
through its lifecycle it has got.  The counters `live` and `alloc_dep` are
explicit state, updated by the transitions exactly as the atomic
read-modify-writes of the source update them (wrapping `u32` arithmetic);
that they coincide with the respective phase counts is *proved* (`Inv`),
not assumed.

A `clone` call is two separate atomic updates in the source
(`alloc_dep.fetch_update` then `live.fetch_add`), so it is two transitions
here, with the new handle in phase `nascent` in between.  While a `clone`
call is in flight the parent handle is borrowed (`&self`), so the parent
cannot be consumed by `wait` (by value) or dropped (`&mut self`): the
retirement transitions therefore require `noNascentChild`.

`wait` is two counter updates (`live.fetch_sub`, then after the futex loop
has observed `live == 0`, `alloc_dep.fetch_sub`); the futex loop itself
does not change the shared state, so `wait` is the transition
`active → wWaiting` (decrementing `live`, waking iff it hit 0) followed by
`wWaiting → wDone` guarded by `live = 0` (decrementing `alloc_dep` and
deallocating iff it hit 0).  `drop` is the same two updates without any
guard on the second: `active → dMid → dDone`.

`freeCount` counts executions of `Box::from_raw` (deallocations) and
`wakes` counts executions of `atomic_wait::wake_all`. -/

/-- Lifecycle phase of one handle. -/
inductive Phase where
  /-- mid-`clone`: counted in `alloc_dep`, not yet in `live`; `parent` is the
  handle the in-flight `clone` call borrows -/
  | nascent (parent : Nat)
  /-- fully created, retirement not begun -/
  | active
  /-- inside `wait`: has decremented `live`, has not yet decremented
  `alloc_dep` (futex loop / about to finish) -/
  | wWaiting
  /-- `wait` has returned -/
  | wDone
  /-- inside `drop`: has decremented `live`, not yet `alloc_dep` -/
  | dMid
  /-- `drop` has finished -/
  | dDone
deriving DecidableEq, Repr

/-- counted in `live`? -/
def Phase.isActive : Phase → Bool
  | Phase.active => true
  | _ => false

/-- counted in `alloc_dep` (retirement protocol not fully completed)? -/
def Phase.isUnfinished : Phase → Bool
  | Phase.wDone => false
  | Phase.dDone => false
  | _ => true

/-- retirement protocol fully completed? -/
def Phase.isFinished (ph : Phase) : Bool := !ph.isUnfinished

/-- mid-`clone` handle? -/
def Phase.isNascent : Phase → Bool
  | Phase.nascent _ => true
  | _ => false

/-- has begun retirement (decremented `live`)? -/
def Phase.begunRetirement : Phase → Bool
  | Phase.nascent _ => false
  | Phase.active => false
  | _ => true

/-- Whole-group state. -/
structure RDVState where
  handles : List Phase
  live : Nat
  alloc_dep : Nat
  /-- number of `Box::from_raw` (deallocation) events so far -/
  freeCount : Nat
  /-- number of `atomic_wait::wake_all` events so far -/
  wakes : Nat
deriving DecidableEq, Repr

/-- Number of handles counted in `live`. -/
def cntActive (hs : List Phase) : Nat := hs.countP Phase.isActive

/-- Number of handles counted in `alloc_dep`. -/
def cntUnfinished (hs : List Phase) : Nat := hs.countP Phase.isUnfinished

/-- Number of mid-`clone` handles. -/
def cntNascent (hs : List Phase) : Nat := hs.countP Phase.isNascent

/-- No `clone` call borrowing handle `p` is in flight (needed for `p` to be
consumed by `wait` or dropped). -/
def noNascentChild (hs : List Phase) (p : Nat) : Bool :=
  hs.all fun ph =>
    match ph with
    | Phase.nascent q => !(q == p)
    | _ => true

/-- Initial state: `new()` made one handle, `live = alloc_dep = 1`. -/
def init : RDVState :=
  { handles := [Phase.active], live := 1, alloc_dep := 1, freeCount := 0, wakes := 0 }

/-- `clone`, first atomic update: `alloc_dep.fetch_update(checked_add 1)`
succeeded (value `s.alloc_dep + 1`, no wrap by the success guard); the new
handle appears as `nascent p`. -/
def cloneStartState (s : RDVState) (p : Nat) : RDVState :=
  { s with handles := s.handles ++ [Phase.nascent p],
           alloc_dep := s.alloc_dep + 1 }

/-- `clone`, second atomic update: `live.fetch_add(1)`; the handle at `i`
becomes `active`. -/
def cloneFinishState (s : RDVState) (i : Nat) : RDVState :=
  { s with handles := s.handles.set i Phase.active,
           live := wrapInc s.live }

/-- `wait`, first atomic update: `live.fetch_sub(1)`; wake-all on `live` iff
the decremented value is 0 (i.e. the old value was 1). -/
def waitBeginState (s : RDVState) (i : Nat) : RDVState :=
  { s with handles := s.handles.set i Phase.wWaiting,
           live := wrapDec s.live,
           wakes := if s.live = 1 then s.wakes + 1 else s.wakes }

/-- `wait`, final atomic update after the loop observed `live == 0`:
`alloc_dep.fetch_sub(1)`; `Box::from_raw` iff the old value was 1. -/
def waitFinishState (s : RDVState) (i : Nat) : RDVState :=
  { s with handles := s.handles.set i Phase.wDone,
           alloc_dep := wrapDec s.alloc_dep,
           freeCount := if s.alloc_dep = 1 then s.freeCount + 1 else s.freeCount }

/-- `drop`, first atomic update: `live.fetch_sub(1)`; wake-all on `live` iff
the old value was 1. -/
def dropBeginState (s : RDVState) (i : Nat) : RDVState :=
  { s with handles := s.handles.set i Phase.dMid,
           live := wrapDec s.live,
           wakes := if s.live = 1 then s.wakes + 1 else s.wakes }

/-- `drop`, second atomic update: `alloc_dep.fetch_sub(1)`; `Box::from_raw`
iff the old value was 1. -/
def dropFinishState (s : RDVState) (i : Nat) : RDVState :=
  { s with handles := s.handles.set i Phase.dDone,
           alloc_dep := wrapDec s.alloc_dep,
           freeCount := if s.alloc_dep = 1 then s.freeCount + 1 else s.freeCount }

/-- One atomic step of any thread of the group. -/
inductive Step : RDVState → RDVState → Prop where
  /-- `clone` on live handle `p`: checked increment of `alloc_dep` succeeds
  (guard: no `u32` overflow). -/
  | cloneStart (s : RDVState) (p : Nat)
      (hp : s.handles[p]? = some Phase.active)
      (hcap : s.alloc_dep + 1 < U32) :
      Step s (cloneStartState s p)
  /-- the same `clone` call then increments `live`. -/
  | cloneFinish (s : RDVState) (i p : Nat)
      (hi : s.handles[i]? = some (Phase.nascent p)) :
      Step s (cloneFinishState s i)
  /-- `wait(self)` begins: handle is live and not borrowed by an in-flight
  `clone`. -/
  | waitBegin (s : RDVState) (i : Nat)
      (hi : s.handles[i]? = some Phase.active)
      (hb : noNascentChild s.handles i = true) :
      Step s (waitBeginState s i)
  /-- `wait` finishes once `live = 0` is observed. -/
  | waitFinish (s : RDVState) (i : Nat)
      (hi : s.handles[i]? = some Phase.wWaiting)
      (hlive : s.live = 0) :
      Step s (waitFinishState s i)
  /-- `drop(&mut self)` begins: handle is live and not borrowed by an
  in-flight `clone`. -/
  | dropBegin (s : RDVState) (i : Nat)
      (hi : s.handles[i]? = some Phase.active)
      (hb : noNascentChild s.handles i = true) :
      Step s (dropBeginState s i)
  /-- `drop` finishes, unconditionally (no guard: abandonment never blocks). -/
  | dropFinish (s : RDVState) (i : Nat)
      (hi : s.handles[i]? = some Phase.dMid) :
      Step s (dropFinishState s i)

/-- States reachable from the group's creation by any interleaving. -/
inductive Reachable : RDVState → Prop where
  | init : Reachable init
  | step {s s' : RDVState} : Reachable s → Step s s' → Reachable s'

/-! ## The inductive invariant -/

/-- The group invariant: the counters are exactly the phase counts, the
counters fit in a `u32`, the allocation has been freed exactly when
`alloc_dep` has hit 0, every mid-`clone` handle's parent is still live,
and once any `wait` has returned nothing is live or mid-`clone` any more. -/
structure StateInv (s : RDVState) : Prop where
  liveEq : s.live = cntActive s.handles
  depEq : s.alloc_dep = cntUnfinished s.handles
  depLt : s.alloc_dep < U32
  freeEq : s.freeCount = if s.alloc_dep = 0 then 1 else 0
  parentActive : ∀ (i p : Nat), s.handles[i]? = some (Phase.nascent p) →
    s.handles[p]? = some Phase.active
  doneRetired : ∀ (i : Nat), s.handles[i]? = some Phase.wDone →
    cntActive s.handles = 0 ∧ cntNascent s.handles = 0

/-! ## Derived notions used by the claims -/

/-- Every handle has begun retirement (decremented `live`). -/
def allRetired (hs : List Phase) : Bool := hs.all Phase.begunRetirement

/-- Every handle has fully finished its retirement protocol. -/
def allFinished (hs : List Phase) : Bool := hs.all Phase.isFinished

/-- The lifecycle order on (optional) phases: `b` is a phase the slot can
evolve to from `a`.  `none` (slot not yet populated) precedes everything;
the two finished phases are terminal; the `wait` path (`wWaiting`) never
crosses over to the destructor path (`dMid`/`dDone`) nor back. -/
def phaseLe : Option Phase → Option Phase → Bool
  | none, _ => true
  | some (Phase.nascent p), some (Phase.nascent q) => p == q
  | some (Phase.nascent _), some Phase.active => true
  | some (Phase.nascent _), some Phase.wWaiting => true
  | some (Phase.nascent _), some Phase.wDone => true
  | some (Phase.nascent _), some Phase.dMid => true
  | some (Phase.nascent _), some Phase.dDone => true
  | some Phase.active, some Phase.active => true
  | some Phase.active, some Phase.wWaiting => true
  | some Phase.active, some Phase.wDone => true
  | some Phase.active, some Phase.dMid => true
  | some Phase.active, some Phase.dDone => true
  | some Phase.wWaiting, some Phase.wWaiting => true
  | some Phase.wWaiting, some Phase.wDone => true
  | some Phase.wDone, some Phase.wDone => true
  | some Phase.dMid, some Phase.dMid => true
  | some Phase.dMid, some Phase.dDone => true
  | some Phase.dDone, some Phase.dDone => true
  | _, _ => false

/-- How many times the handle in this slot has decremented `live` so far. -/
def liveDecs : Option Phase → Nat
  | some Phase.wWaiting | some Phase.wDone | some Phase.dMid | some Phase.dDone => 1
  | _ => 0

/-- How many times the handle in this slot has decremented `alloc_dep` so
far. -/
def pendDecs : Option Phase → Nat
  | some Phase.wDone | some Phase.dDone => 1
  | _ => 0

/-- Is the primitive the blocking `atomic_wait::wait` call? -/
def Prim.isFutexWait : Prim → Bool
  | Prim.futexWait _ => true
  | _ => false

/-- Number of blocking (`atomic_wait::wait`) call sites in a body. -/
def Code.futexWaitCount : Code → Nat
  | Code.skip => 0
  | Code.prim p => if p.isFutexWait then 1 else 0
  | Code.seq a b => a.futexWaitCount + b.futexWaitCount
  | Code.branch t e => t.futexWaitCount + e.futexWaitCount
  | Code.loopW b => b.futexWaitCount

/-! ## Arithmetic and counting lemmas -/

theorem U32_eq_pow : U32 = 2 ^ 32 := by norm_num [U32]

theorem wrapDec_eq_sub_one {n : Nat} (h0 : 0 < n) (hlt : n < U32) :
    wrapDec n = n - 1 := by
  unfold wrapDec U32 at *
  omega

theorem wrapInc_eq_add_one {n : Nat} (hlt : n + 1 < U32) :
    wrapInc n = n + 1 := by
  unfold wrapInc U32 at *
  omega

/-! ## Counting lemmas -/

theorem countP_set_add {α : Type} (p : α → Bool) (l : List α) (i : Nat) (x y : α)
    (hx : l[i]? = some x) :
    (l.set i y).countP p + (if p x then 1 else 0)
      = l.countP p + (if p y then 1 else 0) := by
  induction l generalizing i with
  | nil => simp at hx
  | cons a tl ih =>
    cases i with
    | zero =>
      simp only [List.getElem?_cons_zero, Option.some.injEq] at hx
      subst hx
      simp only [List.set_cons_zero, List.countP_cons]
      omega
    | succ n =>
      simp only [List.getElem?_cons_succ] at hx
      have h := ih n hx
      simp only [List.set_cons_succ, List.countP_cons]
      omega

theorem countP_lt_countP {α : Type} (p q : α → Bool) (l : List α) (i : Nat) (x : α)
    (hx : l[i]? = some x) (hpx : p x = false) (hqx : q x = true)
    (hmono : ∀ y, p y = true → q y = true) :
    l.countP p < l.countP q := by
  induction l generalizing i with
  | nil => simp at hx
  | cons a tl ih =>
    have hle : tl.countP p ≤ tl.countP q :=
      List.countP_mono_left (fun y _ => hmono y)
    have hca : (if p a then 1 else 0) ≤ (if q a then 1 else 0) := by
      by_cases h : p a = true
      · simp [h, hmono a h]
      · simp [h]
    cases i with
    | zero =>
      simp only [List.getElem?_cons_zero, Option.some.injEq] at hx
      subst hx
      simp [List.countP_cons, hpx, hqx]
      omega
    | succ n =>
      simp only [List.getElem?_cons_succ] at hx
      have h := ih n hx
      simp only [List.countP_cons]
      omega

theorem countP_pos_at {α : Type} (p : α → Bool) (l : List α) (i : Nat) (x : α)
    (hx : l[i]? = some x) (hpx : p x = true) : 0 < l.countP p :=
  List.countP_pos_iff.mpr ⟨x, List.mem_iff_getElem?.mpr ⟨i, hx⟩, hpx⟩

theorem isActive_isUnfinished : ∀ ph : Phase,
    ph.isActive = true → ph.isUnfinished = true := by
  intro ph h
  cases ph <;> simp_all [Phase.isActive, Phase.isUnfinished]

/-- `cntActive ≤ cntUnfinished` for any phase list. -/
theorem cntActive_le_cntUnfinished (hs : List Phase) :
    cntActive hs ≤ cntUnfinished hs :=
  List.countP_mono_left (fun y _ => isActive_isUnfinished y)

/-- `noNascentChild` unfolded to indexed form. -/
theorem noNascentChild_spec {hs : List Phase} {p : Nat}
    (h : noNascentChild hs p = true) :
    ∀ (j : Nat), hs[j]? ≠ some (Phase.nascent p) := by
  intro j hj
  have hmem : Phase.nascent p ∈ hs := List.mem_iff_getElem?.mpr ⟨j, hj⟩
  have := List.all_eq_true.mp h _ hmem
  simp at this

theorem inv_init : StateInv init := by
  refine ⟨rfl, rfl, by norm_num [init, U32], rfl, ?_, ?_⟩
  · intro i p h
    match i with
    | 0 => simp [init] at h
    | n + 1 => simp [init] at h
  · intro i h
    match i with
    | 0 => simp [init] at h
    | n + 1 => simp [init] at h

/-- Case analysis for reading an index of `l ++ [x]`. -/
theorem getElem?_append_single {α : Type} {l : List α} {x : α} {j : Nat} {y : α}
    (h : (l ++ [x])[j]? = some y) :
    l[j]? = some y ∨ (j = l.length ∧ y = x) := by
  rcases Nat.lt_trichotomy j l.length with hlt | heq | hgt
  · left
    rwa [List.getElem?_append_left hlt] at h
  · right
    subst heq
    rw [List.getElem?_append_right (Nat.le_refl _), Nat.sub_self] at h
    simp only [List.getElem?_cons_zero, Option.some.injEq] at h
    exact ⟨rfl, h.symm⟩
  · rw [List.getElem?_append_right (Nat.le_of_lt hgt)] at h
    rw [List.getElem?_eq_none (by simp only [List.length_cons, List.length_nil]; omega)] at h
    exact absurd h (by simp)

/-- Case analysis for reading an index of `l.set i x`. -/
theorem getElem?_set_cases {α : Type} {l : List α} {i : Nat} {x : α} {j : Nat} {y : α}
    (h : (l.set i x)[j]? = some y) :
    (j = i ∧ y = x ∧ i < l.length) ∨ (j ≠ i ∧ l[j]? = some y) := by
  by_cases hji : j = i
  · subst hji
    rw [List.getElem?_set] at h
    simp only [if_pos rfl] at h
    by_cases hlen : j < l.length
    · rw [if_pos hlen] at h
      exact Or.inl ⟨rfl, (Option.some.injEq _ _ ▸ h).symm, hlen⟩
    · rw [if_neg hlen] at h
      exact absurd h (by simp)
  · right
    rw [List.getElem?_set_ne (fun hij => hji hij.symm)] at h
    exact ⟨hji, h⟩

/-! ## Preservation of the invariant -/

theorem cntActive_append_nascent (hs : List Phase) (p : Nat) :
    cntActive (hs ++ [Phase.nascent p]) = cntActive hs := by
  simp [cntActive, List.countP_singleton, Phase.isActive]

theorem cntUnfinished_append_nascent (hs : List Phase) (p : Nat) :
    cntUnfinished (hs ++ [Phase.nascent p]) = cntUnfinished hs + 1 := by
  simp [cntUnfinished, List.countP_singleton, Phase.isUnfinished]

/-- How a `set` changes the count of a predicate, with the `if`s spelled out
by the caller. -/
theorem cnt_set (pr : Phase → Bool) (hs : List Phase) (i : Nat) (x y : Phase)
    (hx : hs[i]? = some x) (a b : Nat) (ha : (if pr x then 1 else 0) = a)
    (hb : (if pr y then 1 else 0) = b) :
    hs.countP pr + b = (hs.set i y).countP pr + a := by
  have h := countP_set_add pr hs i x y hx
  omega

theorem inv_cloneStart {s : RDVState} {p : Nat} (hInv : StateInv s)
    (hp : s.handles[p]? = some Phase.active) (hcap : s.alloc_dep + 1 < U32) :
    StateInv (cloneStartState s p) := by
  obtain ⟨hL, hD, hDlt, hF, hPar, hDone⟩ := hInv
  obtain ⟨hplen, -⟩ := List.getElem?_eq_some_iff.mp hp
  have hA0 : 0 < cntActive s.handles := countP_pos_at _ _ p _ hp rfl
  have hAU : cntActive s.handles ≤ cntUnfinished s.handles :=
    cntActive_le_cntUnfinished _
  refine ⟨?_, ?_, ?_, ?_, ?_, ?_⟩
  · simp only [cloneStartState, cntActive_append_nascent]
    exact hL
  · simp only [cloneStartState, cntUnfinished_append_nascent]
    omega
  · simpa [cloneStartState] using hcap
  · have hpos : 0 < s.alloc_dep := by omega
    simp only [cloneStartState]
    rw [hF, if_neg (by omega : ¬ s.alloc_dep = 0),
      if_neg (by omega : ¬ s.alloc_dep + 1 = 0)]
  · intro j q hj
    simp only [cloneStartState] at hj ⊢
    rcases getElem?_append_single hj with hold | ⟨hjlen, hyx⟩
    · have hq := hPar j q hold
      obtain ⟨hqlen, -⟩ := List.getElem?_eq_some_iff.mp hq
      rw [List.getElem?_append_left hqlen]
      exact hq
    · cases hyx
      rw [List.getElem?_append_left hplen]
      exact hp
  · intro j hj
    simp only [cloneStartState] at hj
    rcases getElem?_append_single hj with hold | ⟨-, hyx⟩
    · have := (hDone j hold).1
      omega
    · exact absurd hyx (by simp)

theorem inv_cloneFinish {s : RDVState} {i p : Nat} (hInv : StateInv s)
    (hi : s.handles[i]? = some (Phase.nascent p)) :
    StateInv (cloneFinishState s i) := by
  obtain ⟨hL, hD, hDlt, hF, hPar, hDone⟩ := hInv
  have hAU : cntActive s.handles < cntUnfinished s.handles :=
    countP_lt_countP _ _ _ i _ hi rfl rfl isActive_isUnfinished
  have hcA : cntActive (s.handles.set i Phase.active) = cntActive s.handles + 1 := by
    have h := cnt_set Phase.isActive s.handles i _ Phase.active hi 0 1 (by simp [Phase.isActive]) (by simp [Phase.isActive])
    simp only [cntActive]
    omega
  have hcU : cntUnfinished (s.handles.set i Phase.active) = cntUnfinished s.handles := by
    have h := cnt_set Phase.isUnfinished s.handles i _ Phase.active hi 1 1 (by simp [Phase.isUnfinished]) (by simp [Phase.isUnfinished])
    simp only [cntUnfinished]
    omega
  refine ⟨?_, ?_, ?_, ?_, ?_, ?_⟩
  · simp only [cloneFinishState]
    rw [hcA, wrapInc_eq_add_one (by omega)]
    omega
  · simp only [cloneFinishState]
    rw [hcU]
    omega
  · simpa [cloneFinishState] using hDlt
  · simpa [cloneFinishState] using hF
  · intro j q hj
    simp only [cloneFinishState] at hj ⊢
    rcases getElem?_set_cases hj with ⟨-, hyx, -⟩ | ⟨hji, hold⟩
    · exact absurd hyx (by simp)
    · have hq := hPar j q hold
      have hqi : q ≠ i := by
        intro hqi
        rw [hqi, hi] at hq
        exact absurd hq (by simp)
      rw [List.getElem?_set_ne (fun h => hqi h.symm)]
      exact hq
  · intro j hj
    simp only [cloneFinishState] at hj
    rcases getElem?_set_cases hj with ⟨-, hyx, -⟩ | ⟨hji, hold⟩
    · exact absurd hyx (by simp)
    · have hq := hPar i p hi
      have h1 : 0 < cntActive s.handles := countP_pos_at _ _ p _ hq rfl
      have h2 := (hDone j hold).1
      omega

theorem inv_waitBegin {s : RDVState} {i : Nat} (hInv : StateInv s)
    (hi : s.handles[i]? = some Phase.active)
    (hb : noNascentChild s.handles i = true) :
    StateInv (waitBeginState s i) := by
  obtain ⟨hL, hD, hDlt, hF, hPar, hDone⟩ := hInv
  have hA0 : 0 < cntActive s.handles := countP_pos_at _ _ i _ hi rfl
  have hAU : cntActive s.handles ≤ cntUnfinished s.handles :=
    cntActive_le_cntUnfinished _
  have hcA : cntActive (s.handles.set i Phase.wWaiting) + 1 = cntActive s.handles := by
    have h := cnt_set Phase.isActive s.handles i _ Phase.wWaiting hi 1 0 (by simp [Phase.isActive]) (by simp [Phase.isActive])
    simp only [cntActive]
    omega
  have hcU : cntUnfinished (s.handles.set i Phase.wWaiting) = cntUnfinished s.handles := by
    have h := cnt_set Phase.isUnfinished s.handles i _ Phase.wWaiting hi 1 1 (by simp [Phase.isUnfinished]) (by simp [Phase.isUnfinished])
    simp only [cntUnfinished]
    omega
  refine ⟨?_, ?_, ?_, ?_, ?_, ?_⟩
  · simp only [waitBeginState]
    rw [wrapDec_eq_sub_one (by omega) (by omega)]
    omega
  · simp only [waitBeginState]
    rw [hcU]
    omega
  · simpa [waitBeginState] using hDlt
  · simpa [waitBeginState] using hF
  · intro j q hj
    simp only [waitBeginState] at hj ⊢
    rcases getElem?_set_cases hj with ⟨-, hyx, -⟩ | ⟨hji, hold⟩
    · exact absurd hyx (by simp)
    · have hq := hPar j q hold
      have hqi : q ≠ i := by
        intro hqi
        exact noNascentChild_spec hb j (hqi ▸ hold)
      rw [List.getElem?_set_ne (fun h => hqi h.symm)]
      exact hq
  · intro j hj
    simp only [waitBeginState] at hj
    rcases getElem?_set_cases hj with ⟨-, hyx, -⟩ | ⟨hji, hold⟩
    · exact absurd hyx (by simp)
    · have := (hDone j hold).1
      omega

theorem inv_dropBegin {s : RDVState} {i : Nat} (hInv : StateInv s)
    (hi : s.handles[i]? = some Phase.active)
    (hb : noNascentChild s.handles i = true) :
    StateInv (dropBeginState s i) := by
  obtain ⟨hL, hD, hDlt, hF, hPar, hDone⟩ := hInv
  have hA0 : 0 < cntActive s.handles := countP_pos_at _ _ i _ hi rfl
  have hAU : cntActive s.handles ≤ cntUnfinished s.handles :=
    cntActive_le_cntUnfinished _
  have hcA : cntActive (s.handles.set i Phase.dMid) + 1 = cntActive s.handles := by
    have h := cnt_set Phase.isActive s.handles i _ Phase.dMid hi 1 0 (by simp [Phase.isActive]) (by simp [Phase.isActive])
    simp only [cntActive]
    omega
  have hcU : cntUnfinished (s.handles.set i Phase.dMid) = cntUnfinished s.handles := by
    have h := cnt_set Phase.isUnfinished s.handles i _ Phase.dMid hi 1 1 (by simp [Phase.isUnfinished]) (by simp [Phase.isUnfinished])
    simp only [cntUnfinished]
    omega
  refine ⟨?_, ?_, ?_, ?_, ?_, ?_⟩
  · simp only [dropBeginState]
    rw [wrapDec_eq_sub_one (by omega) (by omega)]
    omega
  · simp only [dropBeginState]
    rw [hcU]
    omega
  · simpa [dropBeginState] using hDlt
  · simpa [dropBeginState] using hF
  · intro j q hj
    simp only [dropBeginState] at hj ⊢
    rcases getElem?_set_cases hj with ⟨-, hyx, -⟩ | ⟨hji, hold⟩
    · exact absurd hyx (by simp)
    · have hq := hPar j q hold
      have hqi : q ≠ i := by
        intro hqi
        exact noNascentChild_spec hb j (hqi ▸ hold)
      rw [List.getElem?_set_ne (fun h => hqi h.symm)]
      exact hq
  · intro j hj
    simp only [dropBeginState] at hj
    rcases getElem?_set_cases hj with ⟨-, hyx, -⟩ | ⟨hji, hold⟩
    · exact absurd hyx (by simp)
    · have := (hDone j hold).1
      omega

theorem inv_waitFinish {s : RDVState} {i : Nat} (hInv : StateInv s)
    (hi : s.handles[i]? = some Phase.wWaiting) (hlive : s.live = 0) :
    StateInv (waitFinishState s i) := by
  obtain ⟨hL, hD, hDlt, hF, hPar, hDone⟩ := hInv
  have hU0 : 0 < cntUnfinished s.handles := countP_pos_at _ _ i _ hi rfl
  have hcA : cntActive (s.handles.set i Phase.wDone) = cntActive s.handles := by
    have h := cnt_set Phase.isActive s.handles i _ Phase.wDone hi 0 0 (by simp [Phase.isActive]) (by simp [Phase.isActive])
    simp only [cntActive]
    omega
  have hcU : cntUnfinished (s.handles.set i Phase.wDone) + 1 = cntUnfinished s.handles := by
    have h := cnt_set Phase.isUnfinished s.handles i _ Phase.wDone hi 1 0 (by simp [Phase.isUnfinished]) (by simp [Phase.isUnfinished])
    simp only [cntUnfinished]
    omega
  have hcN : cntNascent (s.handles.set i Phase.wDone) = cntNascent s.handles := by
    have h := cnt_set Phase.isNascent s.handles i _ Phase.wDone hi 0 0 (by simp [Phase.isNascent]) (by simp [Phase.isNascent])
    simp only [cntNascent]
    omega
  have hnoNas : cntNascent s.handles = 0 := by
    rw [cntNascent, List.countP_eq_zero]
    intro a ha hna
    obtain ⟨j, hj⟩ := List.mem_iff_getElem?.mp ha
    match a, hna with
    | Phase.nascent q, _ =>
      have hq := hPar j q hj
      have h1 : 0 < cntActive s.handles := countP_pos_at _ _ q _ hq rfl
      omega
  refine ⟨?_, ?_, ?_, ?_, ?_, ?_⟩
  · simp only [waitFinishState]
    rw [hcA]
    omega
  · simp only [waitFinishState]
    rw [wrapDec_eq_sub_one (by omega) (by omega)]
    omega
  · simp only [waitFinishState]
    rw [wrapDec_eq_sub_one (by omega) (by omega)]
    omega
  · have hw : wrapDec s.alloc_dep = s.alloc_dep - 1 :=
      wrapDec_eq_sub_one (by omega) (by omega)
    show (if s.alloc_dep = 1 then s.freeCount + 1 else s.freeCount)
        = if wrapDec s.alloc_dep = 0 then 1 else 0
    rw [hw]
    rcases Nat.eq_or_lt_of_le (by omega : 1 ≤ s.alloc_dep) with h | h
    · rw [if_pos h.symm, hF, if_neg (by omega), if_pos (by omega)]
    · rw [if_neg (by omega), hF, if_neg (by omega), if_neg (by omega)]
  · intro j q hj
    simp only [waitFinishState] at hj
    rcases getElem?_set_cases hj with ⟨-, hyx, -⟩ | ⟨hji, hold⟩
    · exact absurd hyx (by simp)
    · have hq := hPar j q hold
      have h1 : 0 < cntActive s.handles := countP_pos_at _ _ q _ hq rfl
      omega
  · intro j hj
    simp only [waitFinishState]
    rw [hcA, hcN]
    exact ⟨by omega, hnoNas⟩

theorem inv_dropFinish {s : RDVState} {i : Nat} (hInv : StateInv s)
    (hi : s.handles[i]? = some Phase.dMid) :
    StateInv (dropFinishState s i) := by
  obtain ⟨hL, hD, hDlt, hF, hPar, hDone⟩ := hInv
  have hU0 : 0 < cntUnfinished s.handles := countP_pos_at _ _ i _ hi rfl
  have hcA : cntActive (s.handles.set i Phase.dDone) = cntActive s.handles := by
    have h := cnt_set Phase.isActive s.handles i _ Phase.dDone hi 0 0 (by simp [Phase.isActive]) (by simp [Phase.isActive])
    simp only [cntActive]
    omega
  have hcU : cntUnfinished (s.handles.set i Phase.dDone) + 1 = cntUnfinished s.handles := by
    have h := cnt_set Phase.isUnfinished s.handles i _ Phase.dDone hi 1 0 (by simp [Phase.isUnfinished]) (by simp [Phase.isUnfinished])
    simp only [cntUnfinished]
    omega
  have hcN : cntNascent (s.handles.set i Phase.dDone) = cntNascent s.handles := by
    have h := cnt_set Phase.isNascent s.handles i _ Phase.dDone hi 0 0 (by simp [Phase.isNascent]) (by simp [Phase.isNascent])
    simp only [cntNascent]
    omega
  refine ⟨?_, ?_, ?_, ?_, ?_, ?_⟩
  · simp only [dropFinishState]
    rw [hcA]
    omega
  · simp only [dropFinishState]
    rw [wrapDec_eq_sub_one (by omega) (by omega)]
    omega
  · simp only [dropFinishState]
    rw [wrapDec_eq_sub_one (by omega) (by omega)]
    omega
  · have hw : wrapDec s.alloc_dep = s.alloc_dep - 1 :=
      wrapDec_eq_sub_one (by omega) (by omega)
    show (if s.alloc_dep = 1 then s.freeCount + 1 else s.freeCount)
        = if wrapDec s.alloc_dep = 0 then 1 else 0
    rw [hw]
    rcases Nat.eq_or_lt_of_le (by omega : 1 ≤ s.alloc_dep) with h | h
    · rw [if_pos h.symm, hF, if_neg (by omega), if_pos (by omega)]
    · rw [if_neg (by omega), hF, if_neg (by omega), if_neg (by omega)]
  · intro j q hj
    simp only [dropFinishState] at hj ⊢
    rcases getElem?_set_cases hj with ⟨-, hyx, -⟩ | ⟨hji, hold⟩
    · exact absurd hyx (by simp)
    · have hq := hPar j q hold
      have hqi : q ≠ i := by
        intro hqi
        rw [hqi, hi] at hq
        exact absurd hq (by simp)
      rw [List.getElem?_set_ne (fun h => hqi h.symm)]
      exact hq
  · intro j hj
    simp only [dropFinishState] at hj
    rcases getElem?_set_cases hj with ⟨-, hyx, -⟩ | ⟨hji, hold⟩
    · exact absurd hyx (by simp)
    · have h1 := (hDone j hold).1
      have h2 := (hDone j hold).2
      simp only [dropFinishState]
      rw [hcA, hcN]
      exact ⟨h1, h2⟩

/-- The invariant is preserved by every step. -/
theorem inv_step {s s' : RDVState} (hInv : StateInv s) (h : Step s s') :
    StateInv s' := by
  cases h with
  | cloneStart p hp hcap => exact inv_cloneStart hInv hp hcap
  | cloneFinish i p hi => exact inv_cloneFinish hInv hi
  | waitBegin i hi hb => exact inv_waitBegin hInv hi hb
  | waitFinish i hi hlive => exact inv_waitFinish hInv hi hlive
  | dropBegin i hi hb => exact inv_dropBegin hInv hi hb
  | dropFinish i hi => exact inv_dropFinish hInv hi

/-- Every reachable state satisfies the invariant. -/
theorem reachable_inv {s : RDVState} (h : Reachable s) : StateInv s := by
  induction h with
  | init => exact inv_init
  | step _ hstep ih => exact inv_step ih hstep

theorem phaseLe_refl (a : Option Phase) : phaseLe a a = true := by
  match a with
  | none => rfl
  | some (Phase.nascent p) => simp [phaseLe]
  | some Phase.active => rfl
  | some Phase.wWaiting => rfl
  | some Phase.wDone => rfl
  | some Phase.dMid => rfl
  | some Phase.dDone => rfl

/-- Everything the lifecycle order gives about the decrement counters. -/
theorem phase_step_facts (a b : Option Phase) (hle : phaseLe a b = true) :
    liveDecs a ≤ liveDecs b ∧ pendDecs a ≤ pendDecs b ∧ liveDecs b ≤ 1 ∧
    pendDecs b ≤ liveDecs b ∧
    ((a = some Phase.wDone ∨ a = some Phase.dDone) → b = a) := by
  rcases a with - | pa
  · rcases b with - | pb
    · simp [liveDecs, pendDecs]
    · cases pb <;> simp [liveDecs, pendDecs]
  · rcases b with - | pb
    · cases pa <;> simp [phaseLe] at hle
    · cases pa <;> cases pb <;>
        simp_all [phaseLe, liveDecs, pendDecs]

/-- `allRetired` follows from vanishing active and nascent counts. -/
theorem allRetired_of_counts {hs : List Phase} (hA : cntActive hs = 0)
    (hN : cntNascent hs = 0) : allRetired hs = true := by
  rw [allRetired, List.all_eq_true]
  intro a ha
  have h1 : ¬ Phase.isActive a = true :=
    List.countP_eq_zero.mp (by simpa [cntActive] using hA) a ha
  have h2 : ¬ Phase.isNascent a = true :=
    List.countP_eq_zero.mp (by simpa [cntNascent] using hN) a ha
  cases a <;> simp_all [Phase.isActive, Phase.isNascent, Phase.begunRetirement]

/-- `allFinished` follows from a vanishing unfinished count. -/
theorem allFinished_of_count {hs : List Phase} (hU : cntUnfinished hs = 0) :
    allFinished hs = true := by
  rw [allFinished, List.all_eq_true]
  intro a ha
  have h1 : ¬ Phase.isUnfinished a = true :=
    List.countP_eq_zero.mp (by simpa [cntUnfinished] using hU) a ha
  cases a <;> simp_all [Phase.isUnfinished, Phase.isFinished]

/-! ## Concrete example run: one handle created by `new`, retired by `wait` -/

theorem step_wb : Step init (waitBeginState init 0) :=
  Step.waitBegin init 0 rfl rfl

theorem reach_wb : Reachable (waitBeginState init 0) :=
  Reachable.step Reachable.init step_wb

theorem step_wf : Step (waitBeginState init 0) (waitFinishState (waitBeginState init 0) 0) :=
  Step.waitFinish (waitBeginState init 0) 0 (by decide) (by decide)

theorem clone_ok {inner : RDVInner} (h : inner.alloc_dep + 1 ≤ U32 - 1) :
    clone inner
      = ({ live := wrapInc inner.live, alloc_dep := inner.alloc_dep + 1 }, none) := by
  simp [clone, fetch_update, checked_add, h]

theorem clone_err {inner : RDVInner} (h : ¬ inner.alloc_dep + 1 ≤ U32 - 1) :
    clone inner = (inner, some CloneError.CapacityExceeded) := by
  simp [clone, fetch_update, checked_add, h]

/-! ## The claims -/

/-- C7: `new()` always succeeds (it is a total function into `RDVInner`,
with no error path), initializes the counters to `live = 1` and
`pending (alloc_dep) = 1`, and the group starts with exactly that shared
state and a single initial handle. -/
theorem c7_new_initial_state :
    new.live = 1 ∧ new.alloc_dep = 1 ∧
    init.handles = [Phase.active] ∧ init.live = 1 ∧ init.alloc_dep = 1 ∧
    init.freeCount = 0 ∧ init.wakes = 0 :=
  ⟨rfl, rfl, rfl, rfl, rfl, rfl, rfl⟩

/-- C8: every futex (blocking wait/wake engine) call site in every method
body targets the `live` counter's address: `wait` has exactly two (the wake
broadcast and the blocking wait), `drop` exactly one (the wake broadcast),
and `clone`, `new` and the `Debug` formatter have none; the `alloc_dep`
(`pending`) field is never a futex target anywhere. -/
theorem c8_engine_only_on_live :
    waitCode.engineTargets = [Fld.live, Fld.live] ∧
    dropCode.engineTargets = [Fld.live] ∧
    cloneCode.engineTargets = [] ∧
    newCode.engineTargets = [] ∧
    fmtCode.engineTargets = [] ∧
    Fld.allocDep ∉ waitCode.engineTargets ++ dropCode.engineTargets ++
      cloneCode.engineTargets ++ newCode.engineTargets ++ fmtCode.engineTargets := by
  refine ⟨rfl, rfl, rfl, rfl, rfl, by decide⟩

/-- C10: the `Debug` formatter is read-only: it reports exactly the current
`live` and `alloc_dep` values, obtained by two independent atomic loads,
and leaves the shared state unchanged; its body contains no write to and no
futex call on either counter. -/
theorem c10_fmt_read_only (inner : RDVInner) :
    (debugFmt inner).1 = (inner.live, inner.alloc_dep) ∧
    (debugFmt inner).2 = inner ∧
    fmtCode.loadTargets = [Fld.live, Fld.allocDep] ∧
    fmtCode.writeTargets = [] ∧
    fmtCode.engineTargets = [] :=
  ⟨rfl, rfl, rfl, rfl, rfl⟩

/-- C2: in every reachable state of every interleaving,
`pending (alloc_dep) ≥ live`; no reachable state has `live > alloc_dep`.
(The ordering that maintains it — increment `alloc_dep` before `live`,
decrement `live` before `alloc_dep` — is the two-transition structure of
`Step`'s clone and retirement cases.) -/
theorem c2_pending_ge_live {s : RDVState} (h : Reachable s) :
    s.live ≤ s.alloc_dep := by
  obtain ⟨hL, hD, -, -, -, -⟩ := reachable_inv h
  have := cntActive_le_cntUnfinished s.handles
  omega

theorem c2_pending_ge_live_witness : init.live ≤ init.alloc_dep :=
  c2_pending_ge_live Reachable.init

/-- C5: duplication fails (the `expect`-abort of the checked increment,
surfacing as `CapacityExceeded`) exactly when `alloc_dep` is already at
`2^32 - 1`; duplicating at `2^32 - 2` succeeds and brings the counter to
the ceiling `2^32 - 1`; and on failure the counter keeps its old value —
it is neither wrapped nor saturated. -/
theorem c5_clone_capacity (inner : RDVInner) (hA : inner.alloc_dep < U32) :
    ((clone inner).2 = some CloneError.CapacityExceeded ↔
      inner.alloc_dep = U32 - 1) ∧
    (inner.alloc_dep = U32 - 2 →
      (clone inner).2 = none ∧ (clone inner).1.alloc_dep = U32 - 1) ∧
    ((clone inner).2 = some CloneError.CapacityExceeded →
      (clone inner).1.alloc_dep = inner.alloc_dep) := by
  have hU : U32 = 4294967296 := rfl
  by_cases h : inner.alloc_dep + 1 ≤ U32 - 1
  · rw [clone_ok h]
    refine ⟨?_, ?_, ?_⟩
    · simp only []
      constructor
      · intro hx
        exact absurd hx (by simp)
      · intro hx
        omega
    · intro h2
      exact ⟨rfl, by simp only []; omega⟩
    · intro hx
      exact absurd hx (by simp)
  · rw [clone_err h]
    refine ⟨?_, ?_, ?_⟩
    · simp only []
      constructor
      · intro _
        omega
      · intro _
        trivial
    · intro h2
      omega
    · intro _
      rfl

theorem c5_clone_capacity_witness :
    (U32 - 2 < U32) ∧
    (((clone ⟨1, U32 - 2⟩).2 = some CloneError.CapacityExceeded ↔
      (⟨1, U32 - 2⟩ : RDVInner).alloc_dep = U32 - 1) ∧
    ((⟨1, U32 - 2⟩ : RDVInner).alloc_dep = U32 - 2 →
      (clone ⟨1, U32 - 2⟩).2 = none ∧ (clone ⟨1, U32 - 2⟩).1.alloc_dep = U32 - 1) ∧
    ((clone ⟨1, U32 - 2⟩).2 = some CloneError.CapacityExceeded →
      (clone ⟨1, U32 - 2⟩).1.alloc_dep = (⟨1, U32 - 2⟩ : RDVInner).alloc_dep)) :=
  ⟨by decide, c5_clone_capacity ⟨1, U32 - 2⟩ (by decide)⟩

/-- C6: a failed duplication is atomic with respect to the group state:
when `clone` fails at the ceiling, the shared state is returned unchanged —
neither `live` nor `alloc_dep` is modified — so the existing group and the
caller's original handle are untouched. -/
theorem c6_failed_clone_is_noop (inner : RDVInner) (e : CloneError)
    (h : (clone inner).2 = some e) :
    (clone inner).1 = inner ∧
    (clone inner).1.live = inner.live ∧
    (clone inner).1.alloc_dep = inner.alloc_dep := by
  by_cases hc : inner.alloc_dep + 1 ≤ U32 - 1
  · rw [clone_ok hc] at h
    exact absurd h (by simp)
  · rw [clone_err hc]
    exact ⟨rfl, rfl, rfl⟩

theorem c6_failed_clone_is_noop_witness :
    (clone ⟨1, U32 - 1⟩).1 = ⟨1, U32 - 1⟩ ∧
    (clone ⟨1, U32 - 1⟩).1.live = (⟨1, U32 - 1⟩ : RDVInner).live ∧
    (clone ⟨1, U32 - 1⟩).1.alloc_dep = (⟨1, U32 - 1⟩ : RDVInner).alloc_dep :=
  c6_failed_clone_is_noop ⟨1, U32 - 1⟩ CloneError.CapacityExceeded (by decide)

/-- C1: over every interleaving of retirements, the shared allocation is
freed exactly once: in every reachable state the number of deallocations so
far is 1 exactly if `alloc_dep (pending)` has reached 0 and 0 otherwise (so
it is never freed while `pending > 0`, i.e. while some handle's retirement
protocol is still executing — when it is freed, every handle is finished);
and a step deallocates precisely when it is the retirement decrement taking
`alloc_dep` from 1 to 0. -/
theorem c1_dealloc_exactly_once {s s' : RDVState} (h : Reachable s)
    (hstep : Step s s') :
    (s.freeCount = if s.alloc_dep = 0 then 1 else 0) ∧
    (s.alloc_dep ≠ 0 → s.freeCount = 0) ∧
    (s.freeCount = 1 → allFinished s.handles = true) ∧
    (s'.freeCount = s.freeCount + 1 ↔ s.alloc_dep = 1 ∧ s'.alloc_dep = 0) := by
  obtain ⟨hL, hD, hDlt, hF, hPar, hDone⟩ := reachable_inv h
  refine ⟨hF, ?_, ?_, ?_⟩
  · intro h0
    rw [hF, if_neg h0]
  · intro h1
    have h0 : s.alloc_dep = 0 := by
      by_contra h0
      rw [hF, if_neg h0] at h1
      exact absurd h1 (by decide)
    exact allFinished_of_count (by omega)
  · cases hstep with
    | cloneStart p hp hcap =>
      show s.freeCount = s.freeCount + 1 ↔ s.alloc_dep = 1 ∧ s.alloc_dep + 1 = 0
      omega
    | cloneFinish j p hj =>
      show s.freeCount = s.freeCount + 1 ↔ s.alloc_dep = 1 ∧ s.alloc_dep = 0
      omega
    | waitBegin j hj hb =>
      show s.freeCount = s.freeCount + 1 ↔ s.alloc_dep = 1 ∧ s.alloc_dep = 0
      omega
    | dropBegin j hj hb =>
      show s.freeCount = s.freeCount + 1 ↔ s.alloc_dep = 1 ∧ s.alloc_dep = 0
      omega
    | waitFinish j hj hlive =>
      have hU0 : 0 < cntUnfinished s.handles := countP_pos_at _ _ j _ hj rfl
      have hw : wrapDec s.alloc_dep = s.alloc_dep - 1 :=
        wrapDec_eq_sub_one (by omega) (by omega)
      show (if s.alloc_dep = 1 then s.freeCount + 1 else s.freeCount)
          = s.freeCount + 1 ↔ s.alloc_dep = 1 ∧ wrapDec s.alloc_dep = 0
      rw [hw]
      by_cases h1 : s.alloc_dep = 1
      · rw [if_pos h1]
        omega
      · rw [if_neg h1]
        omega
    | dropFinish j hj =>
      have hU0 : 0 < cntUnfinished s.handles := countP_pos_at _ _ j _ hj rfl
      have hw : wrapDec s.alloc_dep = s.alloc_dep - 1 :=
        wrapDec_eq_sub_one (by omega) (by omega)
      show (if s.alloc_dep = 1 then s.freeCount + 1 else s.freeCount)
          = s.freeCount + 1 ↔ s.alloc_dep = 1 ∧ wrapDec s.alloc_dep = 0
      rw [hw]
      by_cases h1 : s.alloc_dep = 1
      · rw [if_pos h1]
        omega
      · rw [if_neg h1]
        omega

theorem c1_dealloc_exactly_once_witness :
    ((waitBeginState init 0).freeCount
        = if (waitBeginState init 0).alloc_dep = 0 then 1 else 0) ∧
    ((waitBeginState init 0).alloc_dep ≠ 0 → (waitBeginState init 0).freeCount = 0) ∧
    ((waitBeginState init 0).freeCount = 1 →
      allFinished (waitBeginState init 0).handles = true) ∧
    ((waitFinishState (waitBeginState init 0) 0).freeCount
        = (waitBeginState init 0).freeCount + 1 ↔
      (waitBeginState init 0).alloc_dep = 1 ∧
      (waitFinishState (waitBeginState init 0) 0).alloc_dep = 0) :=
  c1_dealloc_exactly_once reach_wb step_wf

/-- C3: `wait`'s two counter transitions behave as specified in every
reachable state: beginning a `wait` decrements `live` by one (it never
underflows) and broadcasts the wake on `live` exactly when the decremented
value is 0; the final transition is enabled once `live = 0` is observed,
decrements `alloc_dep` by one and deallocates exactly when that decrement
takes `alloc_dep` to 0; and whenever some `wait` has returned, `live = 0`
and every handle of the group has begun retirement. -/
theorem c3_wait_algorithm {s : RDVState} (h : Reachable s) :
    (∀ (i : Nat), s.handles[i]? = some Phase.active →
      noNascentChild s.handles i = true →
      Step s (waitBeginState s i) ∧
      (waitBeginState s i).live = s.live - 1 ∧ 0 < s.live ∧
      ((waitBeginState s i).wakes = s.wakes + 1 ↔ s.live = 1)) ∧
    (∀ (i : Nat), s.handles[i]? = some Phase.wWaiting → s.live = 0 →
      Step s (waitFinishState s i) ∧
      (waitFinishState s i).alloc_dep = s.alloc_dep - 1 ∧ 0 < s.alloc_dep ∧
      ((waitFinishState s i).freeCount = s.freeCount + 1 ↔ s.alloc_dep = 1)) ∧
    (∀ (i : Nat), s.handles[i]? = some Phase.wDone →
      s.live = 0 ∧ allRetired s.handles = true) := by
  obtain ⟨hL, hD, hDlt, hF, hPar, hDone⟩ := reachable_inv h
  refine ⟨?_, ?_, ?_⟩
  · intro i hi hb
    have hA0 : 0 < cntActive s.handles := countP_pos_at _ _ i _ hi rfl
    have hAU := cntActive_le_cntUnfinished s.handles
    have hw : wrapDec s.live = s.live - 1 :=
      wrapDec_eq_sub_one (by omega) (by omega)
    refine ⟨Step.waitBegin s i hi hb, hw, by omega, ?_⟩
    show (if s.live = 1 then s.wakes + 1 else s.wakes) = s.wakes + 1 ↔ s.live = 1
    by_cases h1 : s.live = 1
    · rw [if_pos h1]
      omega
    · rw [if_neg h1]
      omega
  · intro i hi hlive
    have hU0 : 0 < cntUnfinished s.handles := countP_pos_at _ _ i _ hi rfl
    have hw : wrapDec s.alloc_dep = s.alloc_dep - 1 :=
      wrapDec_eq_sub_one (by omega) (by omega)
    refine ⟨Step.waitFinish s i hi hlive, hw, by omega, ?_⟩
    show (if s.alloc_dep = 1 then s.freeCount + 1 else s.freeCount)
        = s.freeCount + 1 ↔ s.alloc_dep = 1
    by_cases h1 : s.alloc_dep = 1
    · rw [if_pos h1]
      omega
    · rw [if_neg h1]
      omega
  · intro i hi
    have hc := hDone i hi
    exact ⟨by omega, allRetired_of_counts hc.1 hc.2⟩

theorem c3_wait_algorithm_witness :
    Step (waitBeginState init 0) (waitFinishState (waitBeginState init 0) 0) ∧
    (waitFinishState (waitBeginState init 0) 0).alloc_dep
        = (waitBeginState init 0).alloc_dep - 1 ∧
    0 < (waitBeginState init 0).alloc_dep ∧
    ((waitFinishState (waitBeginState init 0) 0).freeCount
        = (waitBeginState init 0).freeCount + 1 ↔
      (waitBeginState init 0).alloc_dep = 1) :=
  (c3_wait_algorithm reach_wb).2.1 0 (by decide) (by decide)

/-- C4: abandonment (`drop`) decrements `live` by one (never underflowing)
and broadcasts the wake on `live` exactly when the result is 0; it then
decrements `alloc_dep` and deallocates exactly when that decrement reaches
0 — and it never blocks: both of its transitions are enabled
unconditionally (the second has no guard at all), and its body contains no
blocking futex-wait call site. -/
theorem c4_drop_algorithm {s : RDVState} (h : Reachable s) :
    (∀ (i : Nat), s.handles[i]? = some Phase.active →
      noNascentChild s.handles i = true →
      Step s (dropBeginState s i) ∧
      (dropBeginState s i).live = s.live - 1 ∧ 0 < s.live ∧
      ((dropBeginState s i).wakes = s.wakes + 1 ↔ s.live = 1)) ∧
    (∀ (i : Nat), s.handles[i]? = some Phase.dMid →
      Step s (dropFinishState s i) ∧
      (dropFinishState s i).alloc_dep = s.alloc_dep - 1 ∧ 0 < s.alloc_dep ∧
      ((dropFinishState s i).freeCount = s.freeCount + 1 ↔ s.alloc_dep = 1)) ∧
    dropCode.futexWaitCount = 0 := by
  obtain ⟨hL, hD, hDlt, hF, hPar, hDone⟩ := reachable_inv h
  refine ⟨?_, ?_, rfl⟩
  · intro i hi hb
    have hA0 : 0 < cntActive s.handles := countP_pos_at _ _ i _ hi rfl
    have hAU := cntActive_le_cntUnfinished s.handles
    have hw : wrapDec s.live = s.live - 1 :=
      wrapDec_eq_sub_one (by omega) (by omega)
    refine ⟨Step.dropBegin s i hi hb, hw, by omega, ?_⟩
    show (if s.live = 1 then s.wakes + 1 else s.wakes) = s.wakes + 1 ↔ s.live = 1
    by_cases h1 : s.live = 1
    · rw [if_pos h1]
      omega
    · rw [if_neg h1]
      omega
  · intro i hi
    have hU0 : 0 < cntUnfinished s.handles := countP_pos_at _ _ i _ hi rfl
    have hw : wrapDec s.alloc_dep = s.alloc_dep - 1 :=
      wrapDec_eq_sub_one (by omega) (by omega)
    refine ⟨Step.dropFinish s i hi, hw, by omega, ?_⟩
    show (if s.alloc_dep = 1 then s.freeCount + 1 else s.freeCount)
        = s.freeCount + 1 ↔ s.alloc_dep = 1
    by_cases h1 : s.alloc_dep = 1
    · rw [if_pos h1]
      omega
    · rw [if_neg h1]
      omega

theorem c4_drop_algorithm_witness :
    Step init (dropBeginState init 0) ∧
    (dropBeginState init 0).live = init.live - 1 ∧ 0 < init.live ∧
    ((dropBeginState init 0).wakes = init.wakes + 1 ↔ init.live = 1) :=
  (c4_drop_algorithm Reachable.init).1 0 (by decide) (by decide)

/-- C9: each handle performs exactly one retirement: along any step of any
interleaving each slot only moves forward in the lifecycle order (so a
handle that was waited on — phase `wWaiting`/`wDone`, its destructor
forgotten — can never enter the destructor phases, and finished phases are
terminal), its per-handle `live`- and `alloc_dep`-decrement counts never
decrease and are bounded by one, with the `alloc_dep` decrement never
preceding the `live` decrement. -/
theorem c9_one_retirement_per_handle {s s' : RDVState} (hstep : Step s s')
    (i : Nat) :
    phaseLe s.handles[i]? s'.handles[i]? = true ∧
    liveDecs s.handles[i]? ≤ liveDecs s'.handles[i]? ∧
    pendDecs s.handles[i]? ≤ pendDecs s'.handles[i]? ∧
    liveDecs s'.handles[i]? ≤ 1 ∧
    pendDecs s'.handles[i]? ≤ liveDecs s'.handles[i]? ∧
    ((s.handles[i]? = some Phase.wDone ∨ s.handles[i]? = some Phase.dDone) →
      s'.handles[i]? = s.handles[i]?) := by
  have key : phaseLe s.handles[i]? s'.handles[i]? = true := by
    cases hstep with
    | cloneStart p hp hcap =>
      show phaseLe s.handles[i]? ((s.handles ++ [Phase.nascent p])[i]?) = true
      rcases Nat.lt_trichotomy i s.handles.length with hlt | heq | hgt
      · rw [List.getElem?_append_left hlt]
        exact phaseLe_refl _
      · rw [List.getElem?_eq_none (Nat.le_of_eq heq.symm)]
        rfl
      · rw [List.getElem?_eq_none (Nat.le_of_lt hgt)]
        rfl
    | cloneFinish j p hj =>
      show phaseLe s.handles[i]? ((s.handles.set j Phase.active)[i]?) = true
      by_cases hij : i = j
      · subst hij
        obtain ⟨hlen, -⟩ := List.getElem?_eq_some_iff.mp hj
        rw [hj, List.getElem?_set_self hlen]
        rfl
      · rw [List.getElem?_set_ne (fun hh => hij hh.symm)]
        exact phaseLe_refl _
    | waitBegin j hj hb =>
      show phaseLe s.handles[i]? ((s.handles.set j Phase.wWaiting)[i]?) = true
      by_cases hij : i = j
      · subst hij
        obtain ⟨hlen, -⟩ := List.getElem?_eq_some_iff.mp hj
        rw [hj, List.getElem?_set_self hlen]
        rfl
      · rw [List.getElem?_set_ne (fun hh => hij hh.symm)]
        exact phaseLe_refl _
    | waitFinish j hj hlive =>
      show phaseLe s.handles[i]? ((s.handles.set j Phase.wDone)[i]?) = true
      by_cases hij : i = j
      · subst hij
        obtain ⟨hlen, -⟩ := List.getElem?_eq_some_iff.mp hj
        rw [hj, List.getElem?_set_self hlen]
        rfl
      · rw [List.getElem?_set_ne (fun hh => hij hh.symm)]
        exact phaseLe_refl _
    | dropBegin j hj hb =>
      show phaseLe s.handles[i]? ((s.handles.set j Phase.dMid)[i]?) = true
      by_cases hij : i = j
      · subst hij
        obtain ⟨hlen, -⟩ := List.getElem?_eq_some_iff.mp hj
        rw [hj, List.getElem?_set_self hlen]
        rfl
      · rw [List.getElem?_set_ne (fun hh => hij hh.symm)]
        exact phaseLe_refl _
    | dropFinish j hj =>
      show phaseLe s.handles[i]? ((s.handles.set j Phase.dDone)[i]?) = true
      by_cases hij : i = j
      · subst hij
        obtain ⟨hlen, -⟩ := List.getElem?_eq_some_iff.mp hj
        rw [hj, List.getElem?_set_self hlen]
        rfl
      · rw [List.getElem?_set_ne (fun hh => hij hh.symm)]
        exact phaseLe_refl _
  have facts := phase_step_facts _ _ key
  exact ⟨key, facts.1, facts.2.1, facts.2.2.1, facts.2.2.2.1, facts.2.2.2.2⟩

theorem c9_one_retirement_per_handle_witness :
    phaseLe init.handles[0]? (waitBeginState init 0).handles[0]? = true ∧
    liveDecs init.handles[0]? ≤ liveDecs (waitBeginState init 0).handles[0]? ∧
    pendDecs init.handles[0]? ≤ pendDecs (waitBeginState init 0).handles[0]? ∧
    liveDecs (waitBeginState init 0).handles[0]? ≤ 1 ∧
    pendDecs (waitBeginState init 0).handles[0]?
        ≤ liveDecs (waitBeginState init 0).handles[0]? ∧
    ((init.handles[0]? = some Phase.wDone ∨ init.handles[0]? = some Phase.dDone) →
      (waitBeginState init 0).handles[0]? = init.handles[0]?) :=
  c9_one_retirement_per_handle (Step.waitBegin init 0 rfl rfl) 0

end Rendezvous
